import Mathlib

/-!
Verification of the turn-taking / interruption-arbitration engine of the
podcast generator (`src/podcast_engine.py`), via a shallow embedding of its
core logic in Lean.

Modelling conventions:
* Python strings are modelled as Lean `String` / `List Char`; all text
  processing functions (`str.split`, `str.strip`, the regular expressions of
  the source) are embedded as executable Lean functions over `List Char`.
* Python `int` is modelled as `Int`.
* Personas are identified by their (unique) names; the `Persona` dataclass
  fields other than `name` never influence the engine logic that the claims
  are about, so the roster is modelled as a `List String` of names.
* Timestamps are wall-clock strings in the source; they never influence
  control flow, so transcript entries are modelled as speaker/line pairs.
* The collaborator calls (Ollama HTTP requests) are opaque: their outcomes
  are inputs of the embedded functions (`OllamaOutcome`, `TurnInput`).
* Exceptions are modelled with `Except`.
-/

/-- `INTERRUPTION_THRESHOLD = 6` (source line 25). -/
def INTERRUPTION_THRESHOLD : Int := 6

/-- The `InterruptionBid` dataclass (source line 54-56). -/
structure InterruptionBid where
  importance : Int
  interrupt_after_word : String
  interruption_text : String
  interrupter_name : String
deriving Repr, DecidableEq

/-- `max(interrupt_bids, key=lambda x: x.importance)` for a non-empty list
`acc :: rest` (source line 237).  Python's `max` keeps the current maximum
and replaces it only when a later element's key is strictly greater, hence
ties are won by the earliest element. -/
def pyMaxByImportance (acc : InterruptionBid) : List InterruptionBid → InterruptionBid
  | [] => acc
  | b :: bs => pyMaxByImportance (if acc.importance < b.importance then b else acc) bs

/-- Source lines 233 and 236-237: from the gathered `all_bids`
(`None` entries are failed/abstained bidders), keep the bids whose
importance reaches the threshold (`[b for b in all_bids if b and
b.importance >= INTERRUPTION_THRESHOLD]`); if any remain, the winner is
`max(interrupt_bids, key=lambda x: x.importance)`, otherwise there is no
interruption. -/
def arbitrate (all_bids : List (Option InterruptionBid)) : Option InterruptionBid :=
  match (all_bids.filterMap id).filter
      (fun b => INTERRUPTION_THRESHOLD ≤ b.importance) with
  | [] => none
  | b :: bs => some (pyMaxByImportance b bs)

lemma pyMaxByImportance_spec (bs : List InterruptionBid) (acc : InterruptionBid) :
    ∃ l₁ l₂, acc :: bs = l₁ ++ pyMaxByImportance acc bs :: l₂ ∧
      (∀ b ∈ l₁, b.importance < (pyMaxByImportance acc bs).importance) ∧
      (∀ b ∈ l₂, b.importance ≤ (pyMaxByImportance acc bs).importance) := by
  induction bs generalizing acc with
  | nil =>
      exact ⟨[], [], rfl, by simp, by simp⟩
  | cons b bs ih =>
      by_cases h : acc.importance < b.importance
      · have hmax : pyMaxByImportance acc (b :: bs) = pyMaxByImportance b bs := by
          simp [pyMaxByImportance, h]
        rw [hmax]
        obtain ⟨l₁, l₂, heq, hlt, hle⟩ := ih b
        generalize hm : pyMaxByImportance b bs = m at heq hlt hle ⊢
        have haccm : acc.importance < m.importance := by
          rcases l₁ with _ | ⟨x, l₁'⟩
          · simp only [List.nil_append, List.cons.injEq] at heq
            exact heq.1 ▸ h
          · simp only [List.cons_append, List.cons.injEq] at heq
            have hx := hlt x (List.mem_cons_self _ _)
            exact lt_trans (heq.1 ▸ h) hx
        refine ⟨acc :: l₁, l₂, by simpa using heq, ?_, hle⟩
        intro c hc
        rcases List.mem_cons.mp hc with hc | hc
        · exact hc ▸ haccm
        · exact hlt c hc
      · have hmax : pyMaxByImportance acc (b :: bs) = pyMaxByImportance acc bs := by
          simp [pyMaxByImportance, h]
        rw [hmax]
        push_neg at h
        obtain ⟨l₁, l₂, heq, hlt, hle⟩ := ih acc
        generalize hm : pyMaxByImportance acc bs = m at heq hlt hle ⊢
        rcases l₁ with _ | ⟨x, l₁'⟩
        · -- the maximum is `acc` itself, sitting at the head
          simp only [List.nil_append, List.cons.injEq] at heq
          refine ⟨[], b :: l₂, ?_, by simp, ?_⟩
          · simp [heq.1, heq.2]
          · intro c hc
            rcases List.mem_cons.mp hc with hc | hc
            · exact hc ▸ (heq.1 ▸ h)
            · exact hle c hc
        · -- the maximum sits strictly inside `bs`
          simp only [List.cons_append, List.cons.injEq] at heq
          have hax : acc = x := heq.1
          have htail : bs = l₁' ++ m :: l₂ := heq.2
          refine ⟨acc :: b :: l₁', l₂, by rw [htail]; simp, ?_, hle⟩
          have hxm : x.importance < m.importance := hlt x (List.mem_cons_self _ _)
          intro c hc
          rcases List.mem_cons.mp hc with hc | hc
          · exact hc ▸ (hax ▸ hxm)
          · rcases List.mem_cons.mp hc with hc | hc
            · exact hc ▸ lt_of_le_of_lt (le_trans h (le_of_eq (congrArg (·.importance) hax))) hxm
            · exact hlt c (List.mem_cons_of_mem _ hc)

lemma filter_decomp {α : Type} (p : α → Bool) :
    ∀ (l l₁ l₂ : List α) (w : α), l.filter p = l₁ ++ w :: l₂ →
      ∃ m₁ m₂, l = m₁ ++ w :: m₂ ∧ m₁.filter p = l₁ ∧ m₂.filter p = l₂
  | [], l₁, l₂, w, h => by
      rcases l₁ with _ | ⟨x, l₁'⟩ <;> simp_all
  | a :: l, l₁, l₂, w, h => by
      by_cases hp : p a
      · rw [List.filter_cons_of_pos hp] at h
        rcases l₁ with _ | ⟨x, l₁'⟩
        · simp only [List.nil_append, List.cons.injEq] at h
          exact ⟨[], l, by simp [h.1], by simp, h.2⟩
        · simp only [List.cons_append, List.cons.injEq] at h
          obtain ⟨m₁, m₂, hl, h₁, h₂⟩ := filter_decomp p l l₁' l₂ w h.2
          exact ⟨a :: m₁, m₂, by rw [hl]; simp,
            by rw [List.filter_cons_of_pos hp, h₁, h.1], h₂⟩
      · rw [List.filter_cons_of_neg (by simpa using hp)] at h
        obtain ⟨m₁, m₂, hl, h₁, h₂⟩ := filter_decomp p l l₁ l₂ w h
        exact ⟨a :: m₁, m₂, by rw [hl]; simp,
          by rw [List.filter_cons_of_neg (by simpa using hp), h₁], h₂⟩

/-- C1: interruption occurs iff at least one gathered bid has importance at
least the threshold 6; and the winner is a bid of maximal importance among
all gathered bids, the earliest such bid in the fan-out order (every bid
strictly before it in the gathered list has strictly smaller importance,
every bid after it has importance at most the winner's). -/
theorem c1_arbitration_spec (all_bids : List (Option InterruptionBid)) :
    ((arbitrate all_bids).isSome ↔
      ∃ b ∈ all_bids.filterMap id, INTERRUPTION_THRESHOLD ≤ b.importance)
    ∧ ∀ w, arbitrate all_bids = some w →
        INTERRUPTION_THRESHOLD ≤ w.importance ∧
        ∃ m₁ m₂, all_bids.filterMap id = m₁ ++ w :: m₂ ∧
          (∀ b ∈ m₁, b.importance < w.importance) ∧
          (∀ b ∈ m₂, b.importance ≤ w.importance) := by
  constructor
  · rcases hf : (all_bids.filterMap id).filter
        (fun b => INTERRUPTION_THRESHOLD ≤ b.importance) with _ | ⟨b, bs⟩
    · have harb : arbitrate all_bids = none := by simp only [arbitrate, hf]
      rw [harb]
      simp only [Option.isSome_none, Bool.false_eq_true, false_iff]
      rintro ⟨b, hb, hbi⟩
      have : b ∈ (all_bids.filterMap id).filter
          (fun b => INTERRUPTION_THRESHOLD ≤ b.importance) :=
        List.mem_filter.mpr ⟨hb, by simpa using hbi⟩
      rw [hf] at this
      simp at this
    · have harb : arbitrate all_bids = some (pyMaxByImportance b bs) := by
        simp only [arbitrate, hf]
      rw [harb]
      simp only [Option.isSome_some, true_iff]
      have hb : b ∈ (all_bids.filterMap id).filter
          (fun b => INTERRUPTION_THRESHOLD ≤ b.importance) := by rw [hf]; simp
      have := List.mem_filter.mp hb
      exact ⟨b, this.1, by simpa using this.2⟩
  · intro w hw
    rcases hf : (all_bids.filterMap id).filter
        (fun b => INTERRUPTION_THRESHOLD ≤ b.importance) with _ | ⟨b, bs⟩
    · have harb : arbitrate all_bids = none := by simp only [arbitrate, hf]
      rw [harb] at hw
      exact absurd hw (by simp)
    · have harb : arbitrate all_bids = some (pyMaxByImportance b bs) := by
        simp only [arbitrate, hf]
      rw [harb] at hw
      simp only [Option.some.injEq] at hw
      obtain ⟨l₁, l₂, heq, hlt, hle⟩ := pyMaxByImportance_spec bs b
      rw [hw] at heq hlt hle
      have hwf : w ∈ (all_bids.filterMap id).filter
          (fun b => INTERRUPTION_THRESHOLD ≤ b.importance) := by
        rw [hf, heq]; simp
      have hwi : INTERRUPTION_THRESHOLD ≤ w.importance := by
        simpa using (List.mem_filter.mp hwf).2
      refine ⟨hwi, ?_⟩
      have hfe : (all_bids.filterMap id).filter
          (fun b => INTERRUPTION_THRESHOLD ≤ b.importance) = l₁ ++ w :: l₂ := by
        rw [hf, heq]
      obtain ⟨m₁, m₂, hl, h₁, h₂⟩ := filter_decomp _ _ _ _ _ hfe
      refine ⟨m₁, m₂, hl, ?_, ?_⟩
      · intro c hc
        by_cases hcp : INTERRUPTION_THRESHOLD ≤ c.importance
        · have : c ∈ l₁ := by
            rw [← h₁]; exact List.mem_filter.mpr ⟨hc, by simpa using hcp⟩
          exact hlt c this
        · push_neg at hcp
          exact lt_of_lt_of_le hcp hwi
      · intro c hc
        by_cases hcp : INTERRUPTION_THRESHOLD ≤ c.importance
        · have : c ∈ l₂ := by
            rw [← h₂]; exact List.mem_filter.mpr ⟨hc, by simpa using hcp⟩
          exact hle c this
        · push_neg at hcp
          exact le_of_lt (lt_of_lt_of_le hcp hwi)

/-- The spec's own worked example: with the current speaker B excluded, the
gathered bids are A with importance 8 and C with importance 9 (and one
failed bidder); the winner is C. -/
def exBidA : InterruptionBid := ⟨8, "", "Hold on", "A"⟩

def exBidC : InterruptionBid := ⟨9, "", "Wait!", "C"⟩

def exAllBids : List (Option InterruptionBid) := [some exBidA, none, some exBidC]

/-- Witness for `c1_arbitration_spec`: on the concrete bid list
`[A:8, none, C:9]` the arbiter returns C, and the theorem instantiated
there yields C's maximality decomposition. -/
theorem c1_arbitration_spec_witness :
    INTERRUPTION_THRESHOLD ≤ exBidC.importance ∧
    ∃ m₁ m₂, exAllBids.filterMap id = m₁ ++ exBidC :: m₂ ∧
      (∀ b ∈ m₁, b.importance < exBidC.importance) ∧
      (∀ b ∈ m₂, b.importance ≤ exBidC.importance) :=
  (c1_arbitration_spec exAllBids).2 exBidC rfl

/-! ### Speaker selection (source lines 246-255)

The source parses `re.search(r"NEXT_SPEAKER:\s*\[?(.*?)\]?$", potential_response,
re.IGNORECASE)`.  The embedding below reproduces the backtracking semantics of
that pattern: the scan tries each start position left to right; `\s*` is
greedy; `\[?` and `\]?` prefer consuming their bracket; `(.*?)` is lazy and
cannot cross a newline; `$` matches at the end of the string or before a
single trailing newline. -/

/-- Python regex `\s` on ASCII text (space, tab, newline, return, vertical
tab, form feed). -/
def pyIsSpace (c : Char) : Bool :=
  c == ' ' || c == '\t' || c == '\n' || c == '\r' || c == '\x0b' || c == '\x0c'

/-- Python `str.strip()`. -/
def pyStrip (cs : List Char) : List Char :=
  ((cs.dropWhile pyIsSpace).reverse.dropWhile pyIsSpace).reverse

/-- The character class `[a-zA-Z0-9]` of the source's normalisation regex. -/
def isAsciiAlnum (c : Char) : Bool :=
  ('a' ≤ c && c ≤ 'z') || ('A' ≤ c && c ≤ 'Z') || ('0' ≤ c && c ≤ '9')

/-- `re.sub(r'[^a-zA-Z0-9]', '', s).lower()` (source lines 248-249). -/
def normalizeName (cs : List Char) : List Char :=
  (cs.filter isAsciiAlnum).map Char.toLower

/-- Case-insensitive literal match of a pattern at the head of the input,
returning the remainder on success (models `re.IGNORECASE` on the literal
part of a pattern). -/
def ciLit : List Char → List Char → Option (List Char)
  | [], cs => some cs
  | _ :: _, [] => none
  | p :: ps, c :: cs => if c.toLower == p.toLower then ciLit ps cs else none

/-- `$` without `re.MULTILINE`: end of string, or just before one trailing
newline. -/
def atLineEnd : List Char → Bool
  | [] => true
  | [c] => c == '\n'
  | _ :: _ :: _ => false

/-- Continuation test for the lazy group: does `\]?$` match here
(`\]?` preferring to consume a bracket)? -/
def closeTest (cs : List Char) : Bool :=
  atLineEnd cs ||
    match cs with
    | [] => false
    | c :: rest => c == ']' && atLineEnd rest

/-- The lazy group `(.*?)\]?$`: returns the shortest capture (which cannot
contain a newline) whose continuation matches. -/
def lazyCapture : List Char → Option (List Char)
  | [] => some []
  | c :: rest =>
    if closeTest (c :: rest) then some []
    else if c == '\n' then none
    else (lazyCapture rest).map (fun t => c :: t)

/-- `\[?(.*?)\]?$`: `\[?` prefers to consume an opening bracket and
backtracks to the empty match if the rest then fails. -/
def tailCapture (cs : List Char) : Option (List Char)  :=
  match cs with
  | [] => lazyCapture []
  | c :: rest =>
    if c == '[' then
      match lazyCapture rest with
      | some t => some t
      | none => lazyCapture (c :: rest)
    else lazyCapture (c :: rest)

/-- `\s*\[?(.*?)\]?$`: greedy whitespace with backtracking. -/
def wsGreedy : List Char → Option (List Char)
  | [] => tailCapture []
  | c :: rest =>
    if pyIsSpace c then
      match wsGreedy rest with
      | some t => some t
      | none => tailCapture (c :: rest)
    else tailCapture (c :: rest)

/-- The literal part of the next-speaker pattern, lower-cased. -/
def nsPat : List Char := "next_speaker:".data

/-- Try the whole pattern at one start position. -/
def tryDirective (cs : List Char) : Option (List Char) :=
  match ciLit nsPat cs with
  | some rest => wsGreedy rest
  | none => none

/-- `re.search`: try every start position left to right, return the first
successful capture group. -/
def searchDirective : List Char → Option (List Char)
  | [] => none
  | c :: rest =>
    match tryDirective (c :: rest) with
    | some t => some t
    | none => searchDirective rest

/-- `persona_map = {re.sub(r'[^a-zA-Z0-9]','',p.name).lower(): p.name for p
in personas}` followed by `persona_map[key]` (source line 249): in a dict
comprehension a later persona overwrites an earlier one with the same
normalised name, so lookup returns the last matching persona. -/
def personaLookup (personas : List String) (key : List Char) : Option String :=
  personas.reverse.find? (fun n => normalizeName n.data == key)

/-- Source lines 246-252: the nominated speaker, when the directive is
present, matches a persona, and that persona is not the current speaker;
`none` in every other case. -/
def directiveChoice (resp : String) (personas : List String) (cur : String) :
    Option String :=
  match searchDirective resp.data with
  | none => none
  | some cap =>
    match personaLookup personas (normalizeName (pyStrip cap)) with
    | some nm => if nm = cur then none else some nm
    | none => none

/-- The fallback pool `[p.name for p in self.personas if p.name !=
current_speaker_name]` (source lines 253 and 255). -/
def othersOf (personas : List String) (cur : String) : List String :=
  personas.filter (fun n => n != cur)

/-- `random.choice(l)` with the random draw modelled as an oracle index
`r` (uniform over any non-empty list as `r` ranges over residues). -/
def randChoice (l : List String) (r : Nat) : String := l.getD (r % l.length) ""

/-- Source lines 246-255: take the valid nominated speaker if any,
otherwise fall back to a random choice among the other personas. -/
def selectNextSpeaker (resp : String) (personas : List String) (cur : String)
    (r : Nat) : String :=
  match directiveChoice resp personas cur with
  | some nm => nm
  | none => randChoice (othersOf personas cur) r

/-- The characters of the marker as the response generator is instructed to
emit it (source line 95): marker word, colon, one space. -/
def dirChars : List Char := "NEXT_SPEAKER: ".data

lemma ciLit_dirChars (w : List Char) :
    ciLit nsPat (dirChars ++ w) = some (' ' :: w) := rfl

lemma lazyCapture_plain (l : List Char)
    (hc : ∀ c ∈ l, c ≠ '\n' ∧ c ≠ ']') : lazyCapture l = some l := by
  induction l with
  | nil => rfl
  | cons c rest ih =>
      have hcn : (c == '\n') = false := by
        simpa using (hc c (List.mem_cons_self _ _)).1
      have hcb : (c == ']') = false := by
        simpa using (hc c (List.mem_cons_self _ _)).2
      have hclose : closeTest (c :: rest) = false := by
        rcases rest with _ | ⟨d, rest'⟩
        · simp [closeTest, atLineEnd, hcn, hcb]
        · simp [closeTest, atLineEnd, hcb]
      have := ih (fun d hd => hc d (List.mem_cons_of_mem _ hd))
      simp [lazyCapture, hclose, hcn, this]

lemma lazyCapture_bracketed (l : List Char)
    (hc : ∀ c ∈ l, c ≠ '\n' ∧ c ≠ ']') : lazyCapture (l ++ [']']) = some l := by
  induction l with
  | nil => rfl
  | cons c rest ih =>
      have hcn : (c == '\n') = false := by
        simpa using (hc c (List.mem_cons_self _ _)).1
      have hcb : (c == ']') = false := by
        simpa using (hc c (List.mem_cons_self _ _)).2
      have hclose : closeTest (c :: (rest ++ [']'])) = false := by
        rcases hr : rest ++ [']'] with _ | ⟨d, rest'⟩
        · simp at hr
        · simp [closeTest, atLineEnd, hcb]
      have := ih (fun d hd => hc d (List.mem_cons_of_mem _ hd))
      simp [lazyCapture, hclose, hcn, this]

/-- At the directive itself, the pattern captures exactly the nominated
name (both in the plain and in the bracketed form). -/
lemma tryDirective_at_plain (name : List Char)
    (hname : ∀ c ∈ name, c ≠ '\n' ∧ c ≠ '[' ∧ c ≠ ']')
    (hhd : ∀ c, name.head? = some c → pyIsSpace c = false) :
    tryDirective (dirChars ++ name) = some name := by
  unfold tryDirective
  rw [ciLit_dirChars]
  show wsGreedy (' ' :: name) = some name
  have hws : wsGreedy name = some name := by
    rcases name with _ | ⟨c, rest⟩
    · rfl
    · have hsp : pyIsSpace c = false := hhd c rfl
      have hcb : (c == '[') = false := by
        simpa using (hname c (List.mem_cons_self _ _)).2.1
      have hlz : lazyCapture (c :: rest) = some (c :: rest) :=
        lazyCapture_plain _ (fun d hd => ⟨(hname d hd).1, (hname d hd).2.2⟩)
      simp [wsGreedy, hsp, tailCapture, hcb, hlz]
  simp [wsGreedy, pyIsSpace, hws]

lemma tryDirective_at_bracketed (name : List Char)
    (hname : ∀ c ∈ name, c ≠ '\n' ∧ c ≠ '[' ∧ c ≠ ']') :
    tryDirective (dirChars ++ ('[' :: name ++ [']'])) = some name := by
  unfold tryDirective
  rw [ciLit_dirChars]
  show wsGreedy (' ' :: ('[' :: name ++ [']'])) = some name
  have hlz : lazyCapture (name ++ [']']) = some name :=
    lazyCapture_bracketed _ (fun d hd => ⟨(hname d hd).1, (hname d hd).2.2⟩)
  have hsp : pyIsSpace '[' = false := by decide
  have hbr : ('[' == '[') = true := by decide
  simp [wsGreedy, pyIsSpace, tailCapture, hsp, hbr, hlz]

lemma searchDirective_cons_of_hit (c : Char) (rest t : List Char)
    (h : tryDirective (c :: rest) = some t) :
    searchDirective (c :: rest) = some t := by
  simp [searchDirective, h]

lemma searchDirective_append (pre suf : List Char)
    (h : ∀ i < pre.length, ciLit nsPat ((pre ++ suf).drop i) = none) :
    searchDirective (pre ++ suf) = searchDirective suf := by
  induction pre with
  | nil => simp
  | cons c pre ih =>
      have h0 : ciLit nsPat (c :: (pre ++ suf)) = none := by
        have := h 0 (by simp)
        simpa using this
      have step : searchDirective ((c :: pre) ++ suf) = searchDirective (pre ++ suf) := by
        simp [searchDirective, tryDirective, h0]
      rw [step]
      exact ih (fun i hi => by
        have := h (i + 1) (by simpa using Nat.succ_lt_succ hi)
        simpa using this)

lemma filter_dropWhile_of_excl (p q : Char → Bool)
    (h : ∀ c, q c = true → p c = false) :
    ∀ l : List Char, (l.dropWhile q).filter p = l.filter p := by
  intro l
  induction l with
  | nil => rfl
  | cons c rest ih =>
      by_cases hq : q c
      · rw [List.dropWhile_cons_of_pos hq, ih,
          List.filter_cons_of_neg (by simp [h c hq])]
      · rw [List.dropWhile_cons_of_neg (by simpa using hq)]

lemma space_not_alnum (c : Char) (h : pyIsSpace c = true) : isAsciiAlnum c = false := by
  simp only [pyIsSpace, Bool.or_eq_true, beq_iff_eq] at h
  rcases h with ((((h | h) | h) | h) | h) | h <;> subst h <;> decide

/-- Stripping whitespace before normalising has no effect on the
normalised name. -/
lemma normalizeName_pyStrip (l : List Char) :
    normalizeName (pyStrip l) = normalizeName l := by
  unfold normalizeName pyStrip
  rw [List.filter_reverse, filter_dropWhile_of_excl _ _ space_not_alnum,
    List.filter_reverse, List.reverse_reverse,
    filter_dropWhile_of_excl _ _ space_not_alnum]

/-- C7: if the response ends in a `NEXT_SPEAKER:` directive (case handled by
the pattern; brackets around the name optional), the directive's marker
occurs nowhere earlier in the response, and the nominated name normalises
(strip non-alphanumerics, lower-case) to a persona other than the current
speaker, then that persona becomes the next speaker. -/
theorem c7_directive_selects_persona
    (body name cur p resp : String) (personas : List String) (r : Nat)
    (hwrap : resp.data = body.data ++ dirChars ++ name.data
           ∨ resp.data = body.data ++ dirChars ++ ('[' :: name.data ++ [']']))
    (hname : ∀ c ∈ name.data, c ≠ '\n' ∧ c ≠ '[' ∧ c ≠ ']')
    (hhd : ∀ c, name.data.head? = some c → pyIsSpace c = false)
    (hocc : ∀ i < body.data.length, ciLit nsPat (resp.data.drop i) = none)
    (hmatch : personaLookup personas (normalizeName name.data) = some p)
    (hp : p ≠ cur) :
    selectNextSpeaker resp personas cur r = p := by
  have hsearch : searchDirective resp.data = some name.data := by
    rcases hwrap with hw | hw
    · rw [hw, List.append_assoc]
      rw [searchDirective_append _ _ (fun i hi => by
        have := hocc i hi
        rw [hw, List.append_assoc] at this
        exact this)]
      have := tryDirective_at_plain name.data hname hhd
      rcases hd : dirChars ++ name.data with _ | ⟨c, rest⟩
      · simp [dirChars] at hd
      · rw [hd] at this
        exact searchDirective_cons_of_hit c rest _ this
    · rw [hw, List.append_assoc]
      rw [searchDirective_append _ _ (fun i hi => by
        have := hocc i hi
        rw [hw, List.append_assoc] at this
        exact this)]
      have := tryDirective_at_bracketed name.data hname
      rcases hd : dirChars ++ ('[' :: name.data ++ [']']) with _ | ⟨c, rest⟩
      · simp [dirChars] at hd
      · rw [hd] at this
        exact searchDirective_cons_of_hit c rest _ this
  have hdc : directiveChoice resp personas cur = some p := by
    unfold directiveChoice
    rw [hsearch]
    simp only
    rw [normalizeName_pyStrip, hmatch]
    simp [hp]
  unfold selectNextSpeaker
  rw [hdc]

/-- Witness for `c7_directive_selects_persona`: the spec's worked example —
response ending in `NEXT_SPEAKER: [Bob]`, roster Alice/Bob/Carol, current
speaker Alice — selects Bob. -/
theorem c7_directive_selects_persona_witness :
    selectNextSpeaker "I think so. NEXT_SPEAKER: [Bob]"
      ["Alice", "Bob", "Carol"] "Alice" 0 = "Bob" :=
  c7_directive_selects_persona "I think so. " "Bob" "Alice" "Bob"
    "I think so. NEXT_SPEAKER: [Bob]" ["Alice", "Bob", "Carol"] 0
    (Or.inr (by decide)) (by decide) (by decide) (by decide) (by decide)
    (by decide)

lemma directiveChoice_some_of_eq (resp cur nm : String) (personas : List String)
    (h : directiveChoice resp personas cur = some nm) :
    nm ≠ cur ∧ nm ∈ personas := by
  rcases hs : searchDirective resp.data with _ | cap
  · have hn : directiveChoice resp personas cur = none := by
      unfold directiveChoice; rw [hs]
    rw [hn] at h; exact absurd h (by simp)
  · rcases hl : personaLookup personas (normalizeName (pyStrip cap)) with _ | nm'
    · have hn : directiveChoice resp personas cur = none := by
        unfold directiveChoice; rw [hs]; simp only; rw [hl]
      rw [hn] at h; exact absurd h (by simp)
    · by_cases hc : nm' = cur
      · have hn : directiveChoice resp personas cur = none := by
          unfold directiveChoice; rw [hs]; simp only; rw [hl]; simp [hc]
        rw [hn] at h; exact absurd h (by simp)
      · have hv : directiveChoice resp personas cur = some nm' := by
          unfold directiveChoice; rw [hs]; simp only; rw [hl]; simp [hc]
        rw [hv] at h
        simp only [Option.some.injEq] at h
        subst h
        refine ⟨hc, ?_⟩
        unfold personaLookup at hl
        have := List.mem_of_find?_eq_some hl
        exact List.mem_reverse.mp this

lemma randChoice_mem (l : List String) (r : Nat) (h : l ≠ []) :
    randChoice l r ∈ l := by
  unfold randChoice
  have hlen : 0 < l.length := List.length_pos.mpr h
  have hlt : r % l.length < l.length := Nat.mod_lt _ hlen
  rw [List.getD_eq_getElem _ _ hlt]
  exact List.getElem_mem _

lemma othersOf_ne_nil (personas : List String) (cur : String)
    (hnd : personas.Nodup) (hlen : 2 ≤ personas.length) :
    othersOf personas cur ≠ [] := by
  rcases personas with _ | ⟨a, _ | ⟨b, rest⟩⟩
  · simp at hlen
  · simp at hlen
  · by_cases ha : a = cur
    · have hb : b ≠ cur := by
        intro hbc
        have hnab : ¬a = b ∧ a ∉ rest := by
          simpa using (List.nodup_cons.mp hnd).1
        exact hnab.1 (by rw [ha, hbc])
      intro hemp
      have : b ∈ othersOf (a :: b :: rest) cur :=
        List.mem_filter.mpr ⟨by simp, by simpa using hb⟩
      rw [hemp] at this
      simp at this
    · intro hemp
      have : a ∈ othersOf (a :: b :: rest) cur :=
        List.mem_filter.mpr ⟨by simp, by simpa using ha⟩
      rw [hemp] at this
      simp at this

/-- C8: with a duplicate-free roster of at least two personas, the selected
next speaker is never the current speaker and is always a persona; and
whenever the directive path yields nothing (directive absent, malformed,
unmatched, or self-nominating), the result is the random draw over exactly
the personas other than the current speaker. -/
theorem c8_never_current_speaker (resp cur : String) (personas : List String)
    (r : Nat) (hnd : personas.Nodup) (hlen : 2 ≤ personas.length) :
    selectNextSpeaker resp personas cur r ≠ cur
    ∧ selectNextSpeaker resp personas cur r ∈ personas
    ∧ (directiveChoice resp personas cur = none →
        selectNextSpeaker resp personas cur r = randChoice (othersOf personas cur) r) := by
  have hne : othersOf personas cur ≠ [] := othersOf_ne_nil personas cur hnd hlen
  rcases hd : directiveChoice resp personas cur with _ | nm
  · have hsel : selectNextSpeaker resp personas cur r = randChoice (othersOf personas cur) r := by
      unfold selectNextSpeaker
      rw [hd]
    have hmem : randChoice (othersOf personas cur) r ∈ othersOf personas cur :=
      randChoice_mem _ _ hne
    have hf := List.mem_filter.mp hmem
    refine ⟨?_, ?_, fun _ => hsel⟩
    · rw [hsel]
      simpa using hf.2
    · rw [hsel]
      exact hf.1
  · have hsel : selectNextSpeaker resp personas cur r = nm := by
      unfold selectNextSpeaker
      rw [hd]
    obtain ⟨hnc, hmem⟩ := directiveChoice_some_of_eq resp cur nm personas hd
    exact ⟨by rw [hsel]; exact hnc, by rw [hsel]; exact hmem,
      fun hcontra => Option.noConfusion hcontra⟩

/-- Witness for `c8_never_current_speaker`: a response with no directive,
roster Alice/Bob/Carol, current speaker Alice. -/
theorem c8_never_current_speaker_witness :
    selectNextSpeaker "Let me finish this thought." ["Alice", "Bob", "Carol"] "Alice" 0 ≠ "Alice"
    ∧ selectNextSpeaker "Let me finish this thought." ["Alice", "Bob", "Carol"] "Alice" 0
        ∈ ["Alice", "Bob", "Carol"]
    ∧ (directiveChoice "Let me finish this thought." ["Alice", "Bob", "Carol"] "Alice" = none →
        selectNextSpeaker "Let me finish this thought." ["Alice", "Bob", "Carol"] "Alice" 0
          = randChoice (othersOf ["Alice", "Bob", "Carol"] "Alice") 0) :=
  c8_never_current_speaker "Let me finish this thought." "Alice"
    ["Alice", "Bob", "Carol"] 0 (by decide) (by decide)

/-! ### Bid parsing (source lines 98-114)

`_robust_json_parse` runs `re.search(r"\{{.*?\}}", r, re.DOTALL)`.  In a raw
(non-f) string this pattern is the regex `\{` `{` `.*?` `\}` `}` — Python
treats the stray `{` and `}` as literals — i.e. it matches a DOUBLE opening
brace, a lazy body, and a DOUBLE closing brace.  The matched group therefore
always starts with two opening braces, and `json.loads` rejects any document
whose first two characters are `\x7b\x7b`, so the helper can never return a
parsed object.  `json.loads` itself (a library function) is modelled below
by a standard strict JSON parser; numeric values are kept as their lexemes
(no theorem inspects them). -/

/-- The single-quote character, written via its code point. -/
def quoteChar : Char := Char.ofNat 39

/-- `.replace("'", '"')` (source line 102). -/
def quoteRepl (cs : List Char) : List Char :=
  cs.map (fun c => if c == quoteChar then '"' else c)

/-- The lazy part `.*?\}}` of the search: shortest extension ending in a
double closing brace (DOTALL: any character may be crossed). -/
def lazyToClose : List Char → Option (List Char)
  | '}' :: '}' :: _ => some ['}', '}']
  | c :: cs => (lazyToClose cs).map (fun t => c :: t)
  | [] => none

/-- `re.search(r"\{{.*?\}}", r, re.DOTALL)`, returning `m.group(0)`:
leftmost start position with a double opening brace and some double closing
brace after it; lazy body. -/
def findDoubleBrace : List Char → Option (List Char)
  | [] => none
  | c :: cs =>
    if _hc : c = '{' ∧ cs.head? = some '{' then
      match lazyToClose cs.tail with
      | some mid => some ('{' :: '{' :: mid)
      | none => findDoubleBrace cs
    else findDoubleBrace cs

/-- Is the next non-whitespace character a closing brace or bracket? -/
def closerAfterWs (cs : List Char) : Bool :=
  match cs.dropWhile pyIsSpace with
  | d :: _ => d == '}' || d == ']'
  | [] => false

/-- `re.sub(r",(\s*[\}\]])", r"\1", js)` (source line 102): a comma standing
(up to whitespace) before a closing brace or bracket is deleted, the
whitespace and the closer are kept.  Since the kept region contains no
comma and the substitution only deletes the comma, rescanning the kept
region (as done here) produces the same output as `re.sub`'s
continue-after-the-match behaviour. -/
def commaSub : List Char → List Char
  | [] => []
  | c :: cs =>
    if c == ',' && closerAfterWs cs then commaSub cs
    else c :: commaSub cs

/-- Characters after which `\|` is NOT rewritten by the negative lookahead
`(?!["\\/bfnrtu])` of source line 102. -/
def jsonEscCont (c : Char) : Bool :=
  c == '"' || c == '\\' || c == '/' || c == 'b' || c == 'f' ||
    c == 'n' || c == 'r' || c == 't' || c == 'u'

/-- `re.sub(r'\|(?!["\\/bfnrtu])', r'\\\\', js)` (source line 102): replace a
pipe not followed by a JSON escape continuation with two backslashes. -/
def pipeSub : List Char → List Char
  | [] => []
  | c :: cs =>
    if c == '|' then
      match cs with
      | d :: _ => if jsonEscCont d then c :: pipeSub cs else '\\' :: '\\' :: pipeSub cs
      | [] => ['\\', '\\']
    else c :: pipeSub cs

/-- JSON values as decoded by `json.loads`; numbers keep their lexeme. -/
inductive JVal where
  | jnull : JVal
  | jbool : Bool → JVal
  | jnum : List Char → JVal
  | jstr : List Char → JVal
  | jarr : List JVal → JVal
  | jobj : List (List Char × JVal) → JVal

/-- JSON insignificant whitespace. -/
def jsonWs (c : Char) : Bool := c == ' ' || c == '\t' || c == '\n' || c == '\r'

def jsonSkipWs (cs : List Char) : List Char := cs.dropWhile jsonWs

/-- String body after the opening quote; escape pairs are kept raw in the
value (no theorem inspects decoded string contents). -/
def parseStrBody : List Char → Option (List Char × List Char)
  | [] => none
  | c :: rest =>
    if c == '"' then some ([], rest)
    else if c == '\\' then
      match rest with
      | [] => none
      | d :: rest2 => (parseStrBody rest2).map (fun p => (c :: d :: p.1, p.2))
    else (parseStrBody rest).map (fun p => (c :: p.1, p.2))

/-- JSON number lexeme `-?(0|[1-9]\d*)(\.\d+)?([eE][+-]?\d+)?`, mirroring
the tokenizer of `json.loads` (a shorter valid prefix is consumed and the
leftover input then fails the surrounding context). -/
def parseNumAt (cs : List Char) : Option (JVal × List Char) :=
  let (sign, cs1) :=
    match cs with
    | '-' :: t => (['-'], t)
    | _ => (([] : List Char), cs)
  match cs1 with
  | '0' :: t => some (JVal.jnum (sign ++ ['0']), t)
  | _ =>
    let ip := cs1.takeWhile Char.isDigit
    let cs2 := cs1.dropWhile Char.isDigit
    if ip.isEmpty then none
    else
      let (fp, cs3) :=
        match cs2 with
        | '.' :: t =>
          let ds := t.takeWhile Char.isDigit
          if ds.isEmpty then (([] : List Char), cs2)
          else ('.' :: ds, t.dropWhile Char.isDigit)
        | _ => (([] : List Char), cs2)
      let (ep, cs4) :=
        match cs3 with
        | e :: t =>
          if e == 'e' || e == 'E' then
            let (sg, t2) :=
              match t with
              | '+' :: u => ((['+'] : List Char), u)
              | '-' :: u => ((['-'] : List Char), u)
              | _ => (([] : List Char), t)
            let ds := t2.takeWhile Char.isDigit
            if ds.isEmpty then (([] : List Char), cs3)
            else (e :: (sg ++ ds), t2.dropWhile Char.isDigit)
          else (([] : List Char), cs3)
        | [] => (([] : List Char), cs3)
      some (JVal.jnum (sign ++ ip ++ fp ++ ep), cs4)

mutual

/-- One JSON value, with fuel bounding the nesting depth. -/
def parseVal : Nat → List Char → Option (JVal × List Char)
  | 0, _ => none
  | fuel + 1, cs =>
    match jsonSkipWs cs with
    | [] => none
    | c :: rest =>
      if c == '{' then
        match jsonSkipWs rest with
        | [] => none
        | d :: rest2 =>
          if d == '}' then some (JVal.jobj [], rest2)
          else if d == '"' then parseMembers fuel rest2 []
          else none
      else if c == '[' then
        match jsonSkipWs rest with
        | [] => none
        | d :: rest2 =>
          if d == ']' then some (JVal.jarr [], rest2)
          else parseItems fuel (d :: rest2) []
      else if c == '"' then
        (parseStrBody rest).map (fun p => (JVal.jstr p.1, p.2))
      else if c == 't' then
        match rest with
        | 'r' :: 'u' :: 'e' :: rest2 => some (JVal.jbool true, rest2)
        | _ => none
      else if c == 'f' then
        match rest with
        | 'a' :: 'l' :: 's' :: 'e' :: rest2 => some (JVal.jbool false, rest2)
        | _ => none
      else if c == 'n' then
        match rest with
        | 'u' :: 'l' :: 'l' :: rest2 => some (JVal.jnull, rest2)
        | _ => none
      else parseNumAt (c :: rest)

/-- Object members, positioned just after the opening quote of a key. -/
def parseMembers : Nat → List Char → List (List Char × JVal) →
    Option (JVal × List Char)
  | 0, _, _ => none
  | fuel + 1, cs, acc =>
    match parseStrBody cs with
    | none => none
    | some (key, rest) =>
      match jsonSkipWs rest with
      | ':' :: rest2 =>
        match parseVal fuel rest2 with
        | none => none
        | some (v, rest3) =>
          match jsonSkipWs rest3 with
          | ',' :: rest4 =>
            match jsonSkipWs rest4 with
            | '"' :: rest5 => parseMembers fuel rest5 (acc ++ [(key, v)])
            | _ => none
          | '}' :: rest4 => some (JVal.jobj (acc ++ [(key, v)]), rest4)
          | _ => none
      | _ => none

/-- Array items. -/
def parseItems : Nat → List Char → List JVal → Option (JVal × List Char)
  | 0, _, _ => none
  | fuel + 1, cs, acc =>
    match parseVal fuel cs with
    | none => none
    | some (v, rest) =>
      match jsonSkipWs rest with
      | ',' :: rest2 => parseItems fuel rest2 (acc ++ [v])
      | ']' :: rest2 => some (JVal.jarr (acc ++ [v]), rest2)
      | _ => none

end

/-- `json.loads`: one value, then only whitespace may remain. -/
def jsonLoads (s : String) : Option JVal :=
  match parseVal (s.length + 1) s.data with
  | some (v, rest) => if (jsonSkipWs rest).isEmpty then some v else none
  | none => none

/-- `Character._robust_json_parse` (source lines 98-104). -/
def robustJsonParse (r : String) : Option JVal :=
  match findDoubleBrace r.data with
  | none => none
  | some g => jsonLoads (String.mk (pipeSub (commaSub (quoteRepl g))))

lemma findDoubleBrace_shape :
    ∀ (cs g : List Char), findDoubleBrace cs = some g →
      ∃ t, g = '{' :: '{' :: t := by
  intro cs
  induction cs with
  | nil => intro g h; exact absurd h (by simp [findDoubleBrace])
  | cons c cs ih =>
      intro g h
      by_cases hc : c = '{' ∧ cs.head? = some '{'
      · rw [findDoubleBrace, dif_pos hc] at h
        rcases hl : lazyToClose cs.tail with _ | mid
        · rw [hl] at h
          exact ih g h
        · rw [hl] at h
          simp only [Option.some.injEq] at h
          exact ⟨mid, h.symm⟩
      · rw [findDoubleBrace, dif_neg hc] at h
        exact ih g h

lemma quoteRepl_cons_brace (l : List Char) :
    quoteRepl ('{' :: l) = '{' :: quoteRepl l := by
  have h : ¬('{' = quoteChar) := by decide
  simp [quoteRepl, h]

lemma commaSub_cons_brace (l : List Char) :
    commaSub ('{' :: l) = '{' :: commaSub l := by
  have h : ('{' == ',') = false := by decide
  simp only [commaSub, h, Bool.false_and, Bool.false_eq_true, if_false]

lemma pipeSub_cons_brace (l : List Char) :
    pipeSub ('{' :: l) = '{' :: pipeSub l := by
  have h : ('{' == '|') = false := by decide
  simp only [pipeSub, h, Bool.false_eq_true, if_false]

lemma parseVal_double_brace (fuel : Nat) (t : List Char) :
    parseVal fuel ('{' :: '{' :: t) = none := by
  cases fuel with
  | zero => rfl
  | succ n =>
      have hws : jsonWs '{' = false := by decide
      have h1 : jsonSkipWs ('{' :: '{' :: t) = '{' :: '{' :: t := by
        unfold jsonSkipWs
        exact List.dropWhile_cons_of_neg (by simp [hws])
      have h2 : jsonSkipWs ('{' :: t) = '{' :: t := by
        unfold jsonSkipWs
        exact List.dropWhile_cons_of_neg (by simp [hws])
      have e1 : ('{' == '{') = true := by decide
      have e2 : ('{' == '}') = false := by decide
      have e3 : ('{' == '"') = false := by decide
      simp [parseVal, h1, h2, e1, e2, e3]

/-- On every input, `_robust_json_parse` returns `None`: the
double-brace regex means any matched group starts with two opening braces,
which `json.loads` always rejects. -/
lemma robustJsonParse_none (r : String) : robustJsonParse r = none := by
  rcases hf : findDoubleBrace r.data with _ | g
  · simp [robustJsonParse, hf]
  · obtain ⟨t, ht⟩ := findDoubleBrace_shape r.data g hf
    subst ht
    simp only [robustJsonParse, hf]
    rw [quoteRepl_cons_brace, quoteRepl_cons_brace,
      commaSub_cons_brace, commaSub_cons_brace,
      pipeSub_cons_brace, pipeSub_cons_brace]
    unfold jsonLoads
    rw [show (String.mk ('{' :: '{' :: pipeSub (commaSub (quoteRepl t)))).data
        = '{' :: '{' :: pipeSub (commaSub (quoteRepl t)) from rfl]
    rw [parseVal_double_brace]

/-! ### The bid call path (source lines 62-77 and 105-114)

`_call_ollama` catches every exception (returning an inline error string)
and maps non-200 statuses to an error string, so its outcome space is: a
successful response text, an HTTP error status, or a connection exception.
`bid_for_interruption` then parses, and on a parsed dict would build the
`InterruptionBid` inside `try/except (ValueError, KeyError)`; the keyword
`interrupt_text=` does not exist on the dataclass (its field is
`interruption_text`), so every path reaching the constructor raises an
uncaught `TypeError` (an `int()` conversion may first raise `ValueError`,
which IS caught and yields `None`; other uncaught exceptions of that dead
branch are also modelled as errors).  `asyncio.gather` without
`return_exceptions` re-raises the first task exception. -/

inductive PyErr where
  | typeError : PyErr
  | valueError : PyErr
  | attributeError : PyErr
deriving Repr, DecidableEq

/-- Outcome of the HTTP call made by `_call_ollama`. -/
inductive OllamaOutcome where
  | ok : String → OllamaOutcome
  | httpError : Nat → OllamaOutcome
  | exn : OllamaOutcome
deriving Repr

def pyStripS (s : String) : String := String.mk (pyStrip s.data)

/-- `re.sub(rf"^\s*\x7bre.escape(name)\x7d[:,]?\s*", "", t, re.IGNORECASE)`
(source line 73): strip one leading `Name:` / `Name,` prefix. -/
def stripNameLead (name : String) (cs : List Char) : List Char :=
  match ciLit name.data (cs.dropWhile pyIsSpace) with
  | some rest =>
    (match rest with
     | c :: t => if c == ':' || c == ',' then t else rest
     | [] => []).dropWhile pyIsSpace
  | none => cs

/-- `Character._call_ollama` (source lines 64-77): on HTTP 200 the response
text is stripped and a leading speaker-name prefix removed; otherwise an
inline bracketed error string is returned — never an exception. -/
def callOllama (name : String) (o : OllamaOutcome) : String :=
  match o with
  | .ok t => pyStripS (String.mk (stripNameLead name (pyStripS t).data))
  | .httpError status => "[Error: API Error " ++ toString status ++ "]"
  | .exn => "[Error: Connection Failed]"

/-- Python truthiness of a decoded JSON value (`if not bd`). -/
def jIsFalsy : JVal → Bool
  | .jnull => true
  | .jbool b => !b
  | .jnum lex => (lex.filter Char.isDigit).all (fun c => c == '0')
  | .jstr s => s.isEmpty
  | .jarr xs => xs.isEmpty
  | .jobj fs => fs.isEmpty

/-- `dict.get(key, default)` on a decoded JSON object (later duplicate keys
overwrite earlier ones). -/
def dictGetJ (fields : List (List Char × JVal)) (key : List Char) (dflt : JVal) :
    JVal :=
  match fields.reverse.find? (fun kv => kv.1 == key) with
  | some kv => kv.2
  | none => dflt

/-- `int()` applied to a string: optional sign and digits, else ValueError. -/
def pyStrToIntValue (s : List Char) : Except PyErr Int :=
  let t := ((s.dropWhile pyIsSpace).reverse.dropWhile pyIsSpace).reverse
  let sgn : Bool × List Char :=
    match t with
    | '-' :: u => (true, u)
    | '+' :: u => (false, u)
    | _ => (false, t)
  if sgn.2.isEmpty || !(sgn.2.all Char.isDigit) then .error .valueError
  else
    let n : Nat := sgn.2.foldl (fun a c => a * 10 + (c.toNat - 48)) 0
    .ok (if sgn.1 then -(n : Int) else (n : Int))

/-- Integer value of a JSON number lexeme truncated toward zero, as
`int()` does on the decoded number. -/
def lexIntPart (lex : List Char) : Int :=
  let neg := lex.headD ' ' == '-'
  let body := if neg then lex.tail else lex
  let n : Nat := (body.takeWhile Char.isDigit).foldl
    (fun a c => a * 10 + (c.toNat - 48)) 0
  if neg then -(n : Int) else (n : Int)

/-- Python `int(x)` on a decoded JSON value. -/
def pyInt : JVal → Except PyErr Int
  | .jnum lex => .ok (lexIntPart lex)
  | .jbool b => .ok (if b then 1 else 0)
  | .jstr s => pyStrToIntValue s
  | .jnull => .error .typeError
  | .jarr _ => .error .typeError
  | .jobj _ => .error .typeError

/-- The `try: return InterruptionBid(...) except (ValueError, KeyError):
return None` block of source line 113: argument evaluation may raise a
caught `ValueError` (yielding no bid), but every surviving path calls the
dataclass with the unknown keyword `interrupt_text=` and raises an
uncaught `TypeError`. -/
def bidFromDict : JVal → Except PyErr (Option InterruptionBid)
  | .jobj fields =>
    match pyInt (dictGetJ fields "importance".data (JVal.jnum ['0'])) with
    | .error .valueError => .ok none
    | .error e => .error e
    | .ok _ => .error .typeError
  | _ => .error .attributeError

/-- `Character.bid_for_interruption` (source lines 105-114), as a function
of the collaborator-call outcome. -/
def bidForInterruption (name : String) (o : OllamaOutcome) :
    Except PyErr (Option InterruptionBid) :=
  match robustJsonParse (callOllama name o) with
  | none => .ok none
  | some bd => if jIsFalsy bd then .ok none else bidFromDict bd

/-- `asyncio.gather(*bid_tasks)` without `return_exceptions`: the first
task error aborts the whole gather, otherwise all results are collected in
order. -/
def gatherBids :
    List (Except PyErr (Option InterruptionBid)) →
      Except PyErr (List (Option InterruptionBid))
  | [] => .ok []
  | .error e :: _ => .error e
  | .ok b :: rest =>
    match gatherBids rest with
    | .ok bs => .ok (b :: bs)
    | .error e => .error e

/-- C2: no exception escapes any single persona's bid call path — every
call outcome (success, HTTP error, or connection exception) yields `.ok`,
in fact always "no bid" — and therefore the joint gather of all concurrent
bid calls never aborts: the turn proceeds with the full result list. -/
theorem c2_bid_failure_isolated :
    (∀ (name : String) (o : OllamaOutcome),
      bidForInterruption name o = Except.ok none)
    ∧ ∀ calls : List (String × OllamaOutcome),
        gatherBids (calls.map (fun c => bidForInterruption c.1 c.2))
          = Except.ok (calls.map (fun _ => none)) := by
  have hmain : ∀ (name : String) (o : OllamaOutcome),
      bidForInterruption name o = Except.ok none := by
    intro name o
    simp only [bidForInterruption, robustJsonParse_none]
  refine ⟨hmain, ?_⟩
  intro calls
  induction calls with
  | nil => rfl
  | cons c rest ih => simp [gatherBids, hmain c.1 c.2, ih]

/-- Output text containing exactly the well-formed JSON object the bid
prompt asks for (fields `importance`, `interrupt_after_word`,
`interruption_text`). -/
def c4FailingText : String :=
  String.mk ('{' ::
    ("\"importance\": 8, \"interrupt_after_word\": \"tech\", " ++
      "\"interruption_text\": \"Wait!\"").data ++ ['}'])

/-- C4 (code bug, evaluated at the failing input): an output consisting of
a well-formed JSON object with the three requested fields is NOT parsed
into a bid — `_robust_json_parse` returns `None` (its regex only matches
double braces) and the whole bid call yields "no bid". -/
theorem c4_json_bid_parse_bug :
    robustJsonParse c4FailingText = none
    ∧ bidForInterruption "Ben" (OllamaOutcome.ok c4FailingText)
        = Except.ok none :=
  ⟨robustJsonParse_none c4FailingText,
    (c2_bid_failure_isolated.1 "Ben" (OllamaOutcome.ok c4FailingText))⟩

/-! ### The turn scheduler (`Podcast.run`, source lines 196-255)

The source's turn loop is broken: line 215 repeats the `for` header with no
indented body (a Python `IndentationError`), leaving two overlapping
injection checks.  The only reading consistent with the indentation of
lines 204-255 — also the one described in the spec's design notes — is a
single loop per turn that first drains the WHOLE injection queue as
"Director" entries (the `while` of lines 206-213), then runs the one-line
"Moderator" check of lines 217-224 (dead: the queue was just drained), and
then always executes the turn body (response, bids, arbitration, commit,
speaker selection).  The orphan `for` header itself binds nothing and is
dropped.  Transcript entries keep speaker and line; timestamps and the
file/audio side effects of `_add_to_transcript` are I/O and are dropped. -/

/-- One transcript record (`\x7b"timestamp": …, "speaker": …, "line": …\x7d`
without the wall-clock timestamp). -/
structure Entry where
  speaker : String
  line : String
deriving Repr, DecidableEq

/-- The mutable conversation state owned by `Podcast`. -/
structure RunState where
  transcript : List Entry
  conversation_history : List String
  queue : List String
  currentSpeaker : String
  personas : List String
  wordCounts : List (String × Nat)
  turnCounts : List (String × Nat)
  interruptionCounts : List (String × Nat)
deriving Repr, DecidableEq

/-- `Podcast._add_to_transcript` (source lines 165-171): appends the entry
and the `"speaker: line"` history row.  It does NOT touch the analytics
counters — `_update_analytics` is defined at lines 126-129 but never
called anywhere in the source. -/
def addToTranscript (st : RunState) (speaker line : String) : RunState :=
  { st with
    transcript := st.transcript ++ [⟨speaker, line⟩],
    conversation_history := st.conversation_history ++ [speaker ++ ": " ++ line] }

/-- Accumulator-based word scan (current word is kept reversed). -/
def wordsAux : List Char → List Char → List String
  | cur, [] => if cur.isEmpty then [] else [String.mk cur.reverse]
  | cur, c :: cs =>
    if pyIsSpace c then
      if cur.isEmpty then wordsAux [] cs
      else String.mk cur.reverse :: wordsAux [] cs
    else wordsAux (c :: cur) cs

/-- Python `str.split()` with no argument: splits on whitespace runs,
dropping empty pieces. -/
def pySplitWs (s : String) : List String := wordsAux [] s.data

/-- `d.get(k, dflt)` on an association-list dictionary. -/
def dictGetD (d : List (String × Nat)) (k : String) (dflt : Nat) : Nat :=
  match d.find? (fun kv => kv.1 == k) with
  | some kv => kv.2
  | none => dflt

/-- `d[k] = v` on an association-list dictionary. -/
def dictSet (d : List (String × Nat)) (k : String) (v : Nat) : List (String × Nat) :=
  if d.any (fun kv => kv.1 == k) then
    d.map (fun kv => if kv.1 == k then (k, v) else kv)
  else d ++ [(k, v)]

/-- `Podcast._update_analytics` (source lines 126-129): word count always,
turn count only for persona speakers.  Dead code: nothing invokes it. -/
def updateAnalytics (st : RunState) (speaker line : String) : RunState :=
  let wc := dictSet st.wordCounts speaker
    (dictGetD st.wordCounts speaker 0 + (pySplitWs line).length)
  if speaker ≠ "Moderator" ∧ speaker ≠ "Director" then
    let tc := dictSet st.turnCounts speaker (dictGetD st.turnCounts speaker 0 + 1)
    { st with wordCounts := wc, turnCounts := tc }
  else { st with wordCounts := wc }

/-- The session's opening line (source line 201). -/
def welcomeLine (topic : String) : String :=
  "Welcome! Today" ++ String.mk [quoteChar] ++ "s topic is: " ++ topic ++ "."

/-- `Podcast.__init__` (lines 117-124) and the pre-loop part of `run`
(lines 200-202): empty transcript/history, zeroed per-persona counters, the
Moderator welcome entry, then `current_speaker_name = self.personas[0].name`
(an `IndexError`, i.e. `none`, on an empty roster). -/
def initRun (topic : String) (personas : List String) (queue : List String) :
    Option RunState :=
  match personas with
  | [] => none
  | p :: _ =>
    let st0 : RunState :=
      { transcript := [], conversation_history := [], queue := queue,
        currentSpeaker := "", personas := personas,
        wordCounts := personas.map (fun n => (n, 0)),
        turnCounts := personas.map (fun n => (n, 0)),
        interruptionCounts := personas.map (fun n => (n, 0)) }
    let st1 := addToTranscript st0 "Moderator" (welcomeLine topic)
    some { st1 with currentSpeaker := p }

/-- The `while not self.injection_queue.empty()` drain of lines 206-213:
every queued line becomes a "Director" entry, in FIFO order. -/
def drainAll (st : RunState) : RunState :=
  st.queue.foldl (fun s line => addToTranscript s "Director" line)
    { st with queue := [] }

/-- The single-line injection check of lines 217-224 ("Moderator" entry,
at most one line).  After `drainAll` the queue is empty, so this is dead
code; it is embedded for fidelity. -/
def moderatorCheck (st : RunState) : RunState :=
  match st.queue with
  | [] => st
  | l :: rest => addToTranscript { st with queue := rest } "Moderator" l

/-- `potential_response.split("NEXT_SPEAKER:")[0].strip()` (line 239):
case-sensitive split. -/
def truncateAtMarker (s : String) : String :=
  pyStripS ((s.splitOn "NEXT_SPEAKER:").headD s)

/-- Prefix before the first case-insensitive occurrence of the marker. -/
def cutAtCIMarker : List Char → List Char
  | [] => []
  | c :: cs =>
    if (ciLit nsPat (c :: cs)).isSome then []
    else c :: cutAtCIMarker cs

/-- `re.sub(r"NEXT_SPEAKER:.*", "", resp, re.IGNORECASE|re.DOTALL).strip()`
(line 243): with DOTALL the first match runs to the end of the string. -/
def cleanMarker (s : String) : String :=
  pyStripS (String.mk (cutAtCIMarker s.data))

/-- The per-turn collaborator outcomes: the speaker's generated response
(line 228), the gathered `all_bids` list in fan-out order (lines 230-233),
and the oracle for `random.choice` (lines 253/255). -/
structure TurnInput where
  response : String
  bids : List (Option InterruptionBid)
  rand : Nat

/-- One iteration of the turn loop (source lines 204-255, under the reading
described above): drain the queue as "Director", run the (dead) Moderator
check, then either commit the truncated response plus the winning
interruption and hand the floor to the interrupter, or commit the cleaned
response and pick the next speaker from the directive / random fallback. -/
def runTurn (st : RunState) (inp : TurnInput) : RunState :=
  let st1 := moderatorCheck (drainAll st)
  match arbitrate inp.bids with
  | some winning_bid =>
    let st2 := addToTranscript st1 st1.currentSpeaker (truncateAtMarker inp.response)
    let st3 := addToTranscript st2 winning_bid.interrupter_name
      winning_bid.interruption_text
    { st3 with currentSpeaker := winning_bid.interrupter_name }
  | none =>
    let st2 := addToTranscript st1 st1.currentSpeaker (cleanMarker inp.response)
    { st2 with currentSpeaker :=
        selectNextSpeaker inp.response st1.personas st1.currentSpeaker inp.rand }

lemma foldl_addDirector (q : List String) (s : RunState) :
    q.foldl (fun s line => addToTranscript s "Director" line) s =
    { s with
      transcript := s.transcript ++ q.map (fun l => Entry.mk "Director" l),
      conversation_history :=
        s.conversation_history ++ q.map (fun l => "Director: " ++ l) } := by
  induction q generalizing s with
  | nil => simp
  | cons l q ih =>
      rw [List.foldl_cons, ih]
      simp [addToTranscript]

lemma injectionPhase_spec (st : RunState) :
    moderatorCheck (drainAll st) =
    { st with
      transcript := st.transcript ++ st.queue.map (fun l => Entry.mk "Director" l),
      conversation_history :=
        st.conversation_history ++ st.queue.map (fun l => "Director: " ++ l),
      queue := [] } := by
  unfold drainAll
  rw [foldl_addDirector]
  rfl

lemma runTurn_interrupt_spec (st : RunState) (inp : TurnInput)
    (w : InterruptionBid) (hw : arbitrate inp.bids = some w) :
    runTurn st inp =
    { st with
      transcript := st.transcript ++ st.queue.map (fun l => Entry.mk "Director" l)
        ++ [Entry.mk st.currentSpeaker (truncateAtMarker inp.response),
            Entry.mk w.interrupter_name w.interruption_text],
      conversation_history :=
        st.conversation_history ++ st.queue.map (fun l => "Director: " ++ l)
        ++ [st.currentSpeaker ++ ": " ++ truncateAtMarker inp.response,
            w.interrupter_name ++ ": " ++ w.interruption_text],
      queue := [],
      currentSpeaker := w.interrupter_name } := by
  unfold runTurn
  rw [injectionPhase_spec, hw]
  simp [addToTranscript]

lemma runTurn_normal_spec (st : RunState) (inp : TurnInput)
    (hw : arbitrate inp.bids = none) :
    runTurn st inp =
    { st with
      transcript := st.transcript ++ st.queue.map (fun l => Entry.mk "Director" l)
        ++ [Entry.mk st.currentSpeaker (cleanMarker inp.response)],
      conversation_history :=
        st.conversation_history ++ st.queue.map (fun l => "Director: " ++ l)
        ++ [st.currentSpeaker ++ ": " ++ cleanMarker inp.response],
      queue := [],
      currentSpeaker :=
        selectNextSpeaker inp.response st.personas st.currentSpeaker inp.rand } := by
  unfold runTurn
  rw [injectionPhase_spec, hw]
  simp [addToTranscript]

def zeroABC : List (String × Nat) := [("Alice", 0), ("Bob", 0), ("Carol", 0)]

def c3cSt : RunState :=
  { transcript := [], conversation_history := [], queue := ["l1", "l2"],
    currentSpeaker := "Alice", personas := ["Alice", "Bob", "Carol"],
    wordCounts := zeroABC, turnCounts := zeroABC, interruptionCounts := zeroABC }

def c3cInp : TurnInput :=
  { response := "Sure. NEXT_SPEAKER: [Bob]", bids := [none, none], rand := 0 }

/-- C3 counterexample: with two queued lines and no winning bid, a single
turn drains BOTH lines as "Director" entries (not one line as
"Moderator"), still runs the full turn body (the speaker's cleaned
response is committed), and moves the speaker pointer (Alice hands to
Bob via the directive) — contradicting one-line-per-turn / Moderator /
body-skipped / pointer-unchanged. -/
theorem c3_injection_drain_cex :
    (runTurn c3cSt c3cInp).transcript
      = [Entry.mk "Director" "l1", Entry.mk "Director" "l2",
         Entry.mk "Alice" "Sure."]
    ∧ (runTurn c3cSt c3cInp).queue = []
    ∧ (runTurn c3cSt c3cInp).currentSpeaker = "Bob"
    ∧ c3cSt.currentSpeaker = "Alice" := by
  decide

/-- C3 as amended: a turn with a non-empty injection queue dequeues ALL
queued lines, appending each as a "Director" entry in FIFO order, and the
turn body still executes, appending its usual one entry (two on an
interruption); the speaker pointer is updated by the normal body logic. -/
theorem c3_injection_drain_amended (st : RunState) (inp : TurnInput) :
    (runTurn st inp).queue = []
    ∧ ∃ rest, (runTurn st inp).transcript
        = st.transcript ++ st.queue.map (fun l => Entry.mk "Director" l) ++ rest
      ∧ rest.length = (if (arbitrate inp.bids).isSome then 2 else 1) := by
  rcases hw : arbitrate inp.bids with _ | w
  · refine ⟨by rw [runTurn_normal_spec st inp hw],
      [Entry.mk st.currentSpeaker (cleanMarker inp.response)],
      by rw [runTurn_normal_spec st inp hw], by simp⟩
  · refine ⟨by rw [runTurn_interrupt_spec st inp w hw],
      [Entry.mk st.currentSpeaker (truncateAtMarker inp.response),
       Entry.mk w.interrupter_name w.interruption_text],
      by rw [runTurn_interrupt_spec st inp w hw], by simp⟩

def c5cSt : RunState :=
  { transcript := [], conversation_history := [], queue := ["Stay on topic"],
    currentSpeaker := "Alice", personas := ["Alice", "Bob", "Carol"],
    wordCounts := zeroABC, turnCounts := zeroABC, interruptionCounts := zeroABC }

def c5cInp : TurnInput :=
  { response := "Okay. NEXT_SPEAKER: [Carol]", bids := [none, none], rand := 0 }

/-- C5 counterexample: a turn with one queued injection line and NO
interruption appends two transcript entries, not exactly one. -/
theorem c5_entry_count_cex :
    arbitrate c5cInp.bids = none
    ∧ (runTurn c5cSt c5cInp).transcript.length = c5cSt.transcript.length + 2 := by
  decide

/-- C5 as amended: every turn appends its drained injection lines plus
exactly one entry when no interruption occurs and exactly two when one
does; in particular, on turns with an empty injection queue the original
counts (one / two) hold exactly. -/
theorem c5_entry_count_amended (st : RunState) (inp : TurnInput) :
    (runTurn st inp).transcript.length
      = st.transcript.length + st.queue.length
        + (if (arbitrate inp.bids).isSome then 2 else 1) := by
  rcases hw : arbitrate inp.bids with _ | w
  · rw [runTurn_normal_spec st inp hw]
    simp [List.length_append]
    omega
  · rw [runTurn_interrupt_spec st inp w hw]
    simp [List.length_append]
    omega

def c6cSt : RunState :=
  { transcript := [], conversation_history := [], queue := ["Focus"],
    currentSpeaker := "Alice", personas := ["Alice", "Bob", "Carol"],
    wordCounts := zeroABC, turnCounts := zeroABC, interruptionCounts := zeroABC }

def c6cBid : InterruptionBid := ⟨9, "", "Hold on!", "Carol"⟩

def c6cInp : TurnInput :=
  { response := "My point stands. NEXT_SPEAKER: [Bob]",
    bids := [some ⟨7, "", "Hm", "Bob"⟩, some c6cBid], rand := 0 }

/-- C6 counterexample: in a turn where an interruption wins but an injected
line was queued, the FIRST entry the transcript gains is the drained
"Director" line, not the speaker's truncated response. -/
theorem c6_interruption_commit_cex :
    arbitrate c6cInp.bids = some c6cBid
    ∧ (runTurn c6cSt c6cInp).transcript.head? = some (Entry.mk "Director" "Focus")
    ∧ Entry.mk "Director" "Focus"
        ≠ Entry.mk c6cSt.currentSpeaker (truncateAtMarker c6cInp.response) := by
  decide

/-- C6 as amended: in every turn in which an interruption wins, the
speaker's response truncated at the `NEXT_SPEAKER:` marker and then the
winner's interruption text are appended as the turn's final two entries,
adjacent and in that order (preceded only by any drained injection lines),
and the current speaker becomes the interrupter; the speaker's entry
always precedes the interrupter's entry. -/
theorem c6_interruption_commit_amended (st : RunState) (inp : TurnInput)
    (w : InterruptionBid) (hw : arbitrate inp.bids = some w) :
    (runTurn st inp).transcript
      = st.transcript ++ st.queue.map (fun l => Entry.mk "Director" l)
        ++ [Entry.mk st.currentSpeaker (truncateAtMarker inp.response),
            Entry.mk w.interrupter_name w.interruption_text]
    ∧ (runTurn st inp).currentSpeaker = w.interrupter_name := by
  rw [runTurn_interrupt_spec st inp w hw]
  exact ⟨rfl, rfl⟩

def c6wSt : RunState :=
  { transcript := [], conversation_history := [], queue := [],
    currentSpeaker := "B", personas := ["A", "B", "C"],
    wordCounts := [("A", 0), ("B", 0), ("C", 0)],
    turnCounts := [("A", 0), ("B", 0), ("C", 0)],
    interruptionCounts := [("A", 0), ("B", 0), ("C", 0)] }

def c6wBid : InterruptionBid := ⟨9, "", "Wait!", "C"⟩

def c6wInp : TurnInput :=
  { response := "As I was saying. NEXT_SPEAKER: [A]",
    bids := [some ⟨8, "", "Hold on", "A"⟩, some c6wBid], rand := 0 }

/-- Witness for `c6_interruption_commit_amended`: the spec's worked
example — speaker B, bids A:8 and C:9, empty queue — commits B's truncated
response then C's interruption, and the floor passes to C. -/
theorem c6_interruption_commit_amended_witness :
    (runTurn c6wSt c6wInp).transcript
      = c6wSt.transcript ++ c6wSt.queue.map (fun l => Entry.mk "Director" l)
        ++ [Entry.mk c6wSt.currentSpeaker (truncateAtMarker c6wInp.response),
            Entry.mk c6wBid.interrupter_name c6wBid.interruption_text]
    ∧ (runTurn c6wSt c6wInp).currentSpeaker = c6wBid.interrupter_name :=
  c6_interruption_commit_amended c6wSt c6wInp c6wBid (by decide)

def c9St : RunState :=
  { transcript := [], conversation_history := [], queue := [],
    currentSpeaker := "Alice", personas := ["Alice", "Bob"],
    wordCounts := [("Alice", 0), ("Bob", 0)],
    turnCounts := [("Alice", 0), ("Bob", 0)],
    interruptionCounts := [("Alice", 0), ("Bob", 0)] }

/-- C9 (code bug, evaluated at the failing input): appending the two-word
line "hello world" for persona Alice leaves BOTH analytics counters
unchanged — `_add_to_transcript` never calls `_update_analytics` — even
though the (dead) updater would have changed the word count. -/
theorem c9_analytics_not_updated :
    (addToTranscript c9St "Alice" "hello world").wordCounts = c9St.wordCounts
    ∧ (addToTranscript c9St "Alice" "hello world").turnCounts = c9St.turnCounts
    ∧ (pySplitWs "hello world").length = 2
    ∧ (updateAnalytics c9St "Alice" "hello world").wordCounts ≠ c9St.wordCounts := by
  decide

/-- C10: with a non-empty roster, right after the Moderator welcome entry
the current speaker is the first persona in roster order. -/
theorem c10_initial_speaker (topic : String) (q : List String) (p : String)
    (ps : List String) :
    ∃ st, initRun topic (p :: ps) q = some st
      ∧ st.currentSpeaker = p
      ∧ st.transcript = [Entry.mk "Moderator" (welcomeLine topic)] :=
  ⟨_, rfl, rfl, rfl⟩

lemma addToTranscript_analytics (st : RunState) (sp l : String) :
    (addToTranscript st sp l).wordCounts = st.wordCounts
    ∧ (addToTranscript st sp l).turnCounts = st.turnCounts :=
  ⟨rfl, rfl⟩

lemma find?_map_set (d : List (String × Nat)) (k : String) (v : Nat)
    (h : d.any (fun kv => kv.1 == k) = true) :
    (d.map (fun kv => if kv.1 == k then (k, v) else kv)).find?
      (fun kv => kv.1 == k) = some (k, v) := by
  induction d with
  | nil => simp at h
  | cons kv d ih =>
      by_cases hk : kv.1 == k
      · simp [hk, List.find?]
      · have h' : d.any (fun kv => kv.1 == k) = true := by
          rcases List.any_eq_true.mp h with ⟨x, hx, hpx⟩
          rcases List.mem_cons.mp hx with hx | hx
          · exact absurd (hx ▸ hpx) (by simpa using hk)
          · exact List.any_eq_true.mpr ⟨x, hx, hpx⟩
        have hkf : (kv.1 == k) = false := by simpa using hk
        rw [List.map_cons, if_neg hk]
        simp only [List.find?, hkf]
        exact ih h'

lemma find?_append_single (d : List (String × Nat)) (k : String) (v : Nat)
    (h : ∀ x ∈ d, ¬((x.1 == k) = true)) :
    (d ++ [(k, v)]).find? (fun kv => kv.1 == k) = some (k, v) := by
  induction d with
  | nil => simp [List.find?]
  | cons kv d ih =>
      have hkv := h kv (List.mem_cons_self _ _)
      have hkf : (kv.1 == k) = false := by simpa using hkv
      rw [List.cons_append]
      simp only [List.find?, hkf]
      exact ih (fun x hx => h x (List.mem_cons_of_mem _ hx))

/-- Setting a key then reading it back returns the stored value, whether or
not the key was already present. -/
lemma dictGetD_dictSet (d : List (String × Nat)) (k : String) (v : Nat) :
    dictGetD (dictSet d k v) k 0 = v := by
  unfold dictGetD dictSet
  by_cases h : d.any (fun kv => kv.1 == k)
  · rw [if_pos h, find?_map_set d k v h]
  · rw [if_neg h]
    rw [find?_append_single d k v
      (fun x hx hpx => h (List.any_eq_true.mpr ⟨x, hx, hpx⟩))]

/-- `_update_analytics`, when invoked, does increment the speaker's word
count by the number of words in the line — the per-call behaviour the spec
describes; the bug is that nothing ever invokes it. -/
lemma updateAnalytics_wordCount (st : RunState) (sp line : String) :
    dictGetD (updateAnalytics st sp line).wordCounts sp 0
      = dictGetD st.wordCounts sp 0 + (pySplitWs line).length := by
  by_cases h : sp ≠ "Moderator" ∧ sp ≠ "Director"
  · simp only [updateAnalytics, if_pos h]
    exact dictGetD_dictSet _ _ _
  · simp only [updateAnalytics, if_neg h]
    exact dictGetD_dictSet _ _ _

/-- `_update_analytics`, when invoked, increments the turn count exactly
for persona speakers (not "Moderator"/"Director"). -/
lemma updateAnalytics_turnCount (st : RunState) (sp line : String)
    (h : sp ≠ "Moderator" ∧ sp ≠ "Director") :
    dictGetD (updateAnalytics st sp line).turnCounts sp 0
      = dictGetD st.turnCounts sp 0 + 1 := by
  simp only [updateAnalytics, if_pos h]
  exact dictGetD_dictSet _ _ _
